import Mathlib

/-!
Verification development for the DotDash text-expansion application.

We shallowly embed the TypeScript sources:
  * `src/lib/storage.ts` — rules-file persistence (`serializeRules`,
    `parseRulesFile`, `loadRulesFromStorage`);
  * `src/lib/validation.ts` — `validateRule`;
  * `src/state/pause-toggle-store` (the file shipped as `unnamed/part_012`)
    — `mapPauseReason`, `refreshPauseState`, `togglePause`,
    `pauseExpansions`, `resumeExpansions`, the secure-input listener;
  * the integration-test copy of `generateCommandSuggestions`.
The Rust backend (Tauri commands `toggle_global_pause`, `set_pause_state`,
`get_pause_state`, and the keystroke engine) is not part of the frontend
sources; where a claim depends on it, the backend is modelled from the
specification and the model is marked `Modelled from the spec:`.

JavaScript strings are modelled as Lean `String`s (lists of characters);
`JSON.parse` / `JSON.stringify` are modelled at the level of JSON values:
a parsed payload is a `Json` tree, a parse failure is `Option.none`.
-/

namespace DotDash

/-- A JSON value as produced by `JSON.parse`. Numbers are modelled as
integers (the only number the storage layer inspects is the literal
version `1`). -/
inductive Json where
  | null : Json
  | bool : Bool → Json
  | num : Int → Json
  | str : String → Json
  | arr : List Json → Json
  | obj : List (String × Json) → Json
deriving Repr

/-- JavaScript property access `value.key`: defined (non-`undefined`) only
on objects that carry the key. -/
def Json.getField : Json → String → Option Json
  | .obj fields, k => fields.lookup k
  | _, _ => none

/-- JavaScript falsiness of a parsed JSON value (`!parsed`): `null`,
`false`, `0` and `""` are falsy. -/
def Json.falsy : Json → Bool
  | .null => true
  | .bool b => !b
  | .num n => n == 0
  | .str s => s == ""
  | _ => false

/-- `typeof parsed === "object"` for a parsed JSON value: `null`, arrays
and objects. -/
def Json.typeofIsObject : Json → Bool
  | .null => true
  | .arr _ => true
  | .obj _ => true
  | _ => false

/-- `parsed === null`. -/
def Json.isNull : Json → Bool
  | .null => true
  | _ => false

/-- `RULES_VERSION` from `storage.ts`. -/
def RULES_VERSION : Int := 1

/-- `serializeRules` from `storage.ts`: builds the payload
`{version: RULES_VERSION, rules}` (the call `JSON.stringify(payload, null, 2)`
is modelled at the JSON-value level). The rule entries are carried through
untouched, as in the source, which never inspects individual rules here. -/
def serializeRules (rules : List Json) : Json :=
  Json.obj [("version", Json.num RULES_VERSION), ("rules", Json.arr rules)]

/-- `parseRulesFile` from `storage.ts`. The input is the result of
`JSON.parse(text)`: `none` when parsing threw. The source checks
`!parsed || parsed.version !== RULES_VERSION || !Array.isArray(parsed.rules)`
and otherwise returns `parsed.rules` unvalidated. -/
def parseRulesFile : Option Json → Option (List Json)
  | none => none
  | some parsed =>
    if parsed.falsy then none
    else
      match parsed.getField "version", parsed.getField "rules" with
      | some (.num v), some (.arr rules) =>
        if v == RULES_VERSION then some rules else none
      | _, _ => none

/-- `loadRulesFromStorage` from `storage.ts`. The input models
`localStorage.getItem(STORAGE_KEY)` followed by `JSON.parse`: `none` when
the item is absent or falsy (`if (!raw) return null`), `some none` when
`JSON.parse` threw, `some (some v)` when it produced `v`. -/
def loadRulesFromStorage : Option (Option Json) → Option (List Json)
  | none => none
  | some none => none
  | some (some parsed) =>
    if !parsed.typeofIsObject || parsed.isNull then none
    else
      match parsed.getField "version", parsed.getField "rules" with
      | some (.num v), some (.arr rules) =>
        if v == RULES_VERSION then some rules else none
      | _, _ => none

/-! ### `src/lib/validation.ts` -/

/-- A JavaScript string, modelled as its list of characters (`length`,
indexing and `toLowerCase` agree with JavaScript on the ASCII range used
by commands). -/
abbrev JStr := List Char

/-- `String.prototype.toLowerCase`, on the ASCII range. -/
def jsToLower (s : JStr) : JStr := s.map Char.toLower

/-- Membership in the regex character class `[A-Za-z0-9_]`. -/
def isCmdChar (c : Char) : Bool :=
  (('A' ≤ c && c ≤ 'Z') || ('a' ≤ c && c ≤ 'z') || ('0' ≤ c && c ≤ '9') || c == '_')

/-- `ExpansionRule` (the fields `validateRule` reads; timestamps are not
consulted by any embedded function). -/
structure ExpansionRule where
  id : JStr
  command : JStr
  replacementText : JStr
deriving Repr, DecidableEq

/-- The `field` discriminator of `ValidationError`. -/
inductive ErrorField where
  | command : ErrorField
  | replacementText : ErrorField
deriving Repr, DecidableEq

/-- `ValidationError` from `validation.ts`. -/
structure ValidationError where
  field : ErrorField
  message : JStr
deriving Repr, DecidableEq

/-- The `RESERVED` set from `validation.ts`. -/
def RESERVED : List JStr :=
  [".help".data, ".settings".data, ".about".data, ".quit".data,
   ".exit".data, ".version".data, ".info".data]

/-- The test `/^\.[A-Za-z0-9_]+$/.test(command)`: a period followed by one
or more characters of the class. -/
def commandPatternTest : JStr → Bool
  | [] => false
  | c :: rest => c == '.' && !rest.isEmpty && rest.all isCmdChar

/-- The test `/__/.test(command)`: some doubled underscore occurs. -/
def hasDoubleUnderscore : JStr → Bool
  | [] => false
  | [_] => false
  | a :: b :: rest => (a == '_' && b == '_') || hasDoubleUnderscore (b :: rest)

/-- The `^\._` half of the test `/^\._|_$/.test(command)`. -/
def startsDotUnderscore : JStr → Bool
  | [] => false
  | [_] => false
  | a :: b :: _ => a == '.' && b == '_'

/-- The test `/^\._|_$/.test(command)`: the string starts with `._` or
ends with `_`. -/
def hasLeadTrailUnderscore (s : JStr) : Bool :=
  startsDotUnderscore s || s.getLast? == some '_'

/-- `command.startsWith(".")`. -/
def startsWithDot : JStr → Bool
  | [] => false
  | c :: _ => c == '.'

/-- `replacementText.split("\n").length`: splitting on a one-character
separator yields one more piece than there are separator occurrences. -/
def jsLineCount (s : JStr) : Nat := s.countP (· == '\n') + 1

/-- `validateRule` from `validation.ts`: the checks are performed in
source order and each failing check appends its error. `selfId` is the
optional third argument (`undefined` = `Option.none`). -/
def validateRule (command replacementText : JStr) (existing : List ExpansionRule)
    (selfId : Option JStr) : List ValidationError :=
  (if !startsWithDot command then
     [⟨ErrorField.command, "Must start with a period (.)".data⟩] else []) ++
  (if command.length ≤ 4 then
     [⟨ErrorField.command, "Must be longer than 4 characters".data⟩] else []) ++
  (if !commandPatternTest command then
     [⟨ErrorField.command, "Only letters, numbers, and underscores after the period".data⟩] else []) ++
  (if command.length > 50 then
     [⟨ErrorField.command, "Maximum length is 50 characters".data⟩] else []) ++
  (if hasDoubleUnderscore command then
     [⟨ErrorField.command, "No consecutive underscores".data⟩] else []) ++
  (if hasLeadTrailUnderscore command then
     [⟨ErrorField.command, "No leading or trailing underscore after the period".data⟩] else []) ++
  (if RESERVED.contains (jsToLower command) then
     [⟨ErrorField.command, "This command is reserved".data⟩] else []) ++
  (if existing.any (fun r => some r.id != selfId && jsToLower r.command == jsToLower command) then
     [⟨ErrorField.command, "Must be unique".data⟩] else []) ++
  (if replacementText.isEmpty then
     [⟨ErrorField.replacementText, "Replacement text cannot be empty".data⟩] else []) ++
  (if replacementText.length > 10000 then
     [⟨ErrorField.replacementText, "Maximum length is 10,000 characters".data⟩] else []) ++
  (if jsLineCount replacementText > 100 then
     [⟨ErrorField.replacementText, "Maximum 100 lines".data⟩] else [])

/-- The specification's characterization of a command that draws no
command-field error: starts with the sentinel `.`, total length 5–50,
period followed only by `[A-Za-z0-9_]`, no doubled underscore, no leading
or trailing underscore after the period, not reserved (the reserved-word
check is case-insensitive), and case-insensitively unique among the other
existing rules. Stated from the claim's words, to be compared with
`validateRule`. -/
def specCommandOk (command : JStr) (existing : List ExpansionRule)
    (selfId : Option JStr) : Prop :=
  startsWithDot command = true ∧
  (5 ≤ command.length ∧ command.length ≤ 50) ∧
  (∃ rest, command = '.' :: rest ∧ ∀ c ∈ rest, isCmdChar c = true) ∧
  (¬ ∃ l1 l2, command = l1 ++ '_' :: '_' :: l2) ∧
  (¬ ∃ rest, command = '.' :: '_' :: rest) ∧
  command.getLast? ≠ some '_' ∧
  jsToLower command ∉ RESERVED ∧
  (∀ r ∈ existing, some r.id ≠ selfId → jsToLower r.command ≠ jsToLower command)

/-- The specification's characterization of replacement text that draws no
replacementText-field error: non-empty, at most 10,000 characters, at most
100 lines (a text of `k` newline characters has `k + 1` lines). Stated
from the claim's words, to be compared with `validateRule`. -/
def specReplacementOk (replacementText : JStr) : Prop :=
  replacementText ≠ [] ∧
  replacementText.length ≤ 10000 ∧
  replacementText.countP (· == '\n') + 1 ≤ 100

/-! ### `generateCommandSuggestions` (integration-test copy)

The embedding separates the function into the strategy pipeline
(`computeCommandSuggestions`, the cache-miss computation) and the stateful
wrapper `generateCommandSuggestions`, which threads the module-level
`suggestionCache` explicitly, builds the (lossy) cache key
`` base + ":" + existing.sort().join(",") ``, and models the JS record
lookup `synonymMap[key]`: a key inherited from `Object.prototype`
(`'constructor'`, `'__proto__'`, ...) yields a truthy non-iterable value,
so the subsequent `for...of` throws — modelled as `Option.none`. The
in-place `sort()` mutation of the argument is unobservable downstream
(only set membership of the same elements is consulted). -/

/-- The inner helper `addSuggestion`: append the candidate when it is
case-insensitively absent from the existing set, fewer than 5 suggestions
are collected, and it is not already collected. `existingSet` is
`existingCommands` lowercased. -/
def addSuggestion (existingSet : List JStr) (suggestions : List JStr) (s : JStr) : List JStr :=
  if !existingSet.contains (jsToLower s) && suggestions.length < 5 && !suggestions.contains s then
    suggestions ++ [s]
  else
    suggestions

/-- The `synonymMap` record. -/
def synonymMap : List (JStr × List JStr) :=
  [("sig".data, ["signature".data, "sign".data]),
   ("signature".data, ["sig".data, "sign".data]),
   ("meeting".data, ["meet".data, "mtg".data]),
   ("address".data, ["addr".data, "location".data]),
   ("phone".data, ["tel".data, "mobile".data]),
   ("email".data, ["mail".data, "contact".data]),
   ("thanks".data, ["thx".data, "ty".data]),
   ("regards".data, ["rgds".data, "best".data])]

/-- The `descriptiveSuffixes` array. -/
def descriptiveSuffixes : List JStr :=
  ["_new".data, "_alt".data, "_work".data, "_personal".data, "_temp".data]

/-- The strategy pipeline of `generateCommandSuggestions` (the cache-miss
computation): four strategies feed `addSuggestion` in order, then
`suggestions.slice(0, 5)` is returned. Strategy 4's loop guard
`suggestions.length < 5` only stops iterations that `addSuggestion` would
reject anyway. `synonymMap.lookup` with `getD []` equals the source's
`synonymMap[key] || []` whenever that lookup does not reach an inherited
`Object.prototype` member (the wrapper below rules the throwing case
out before calling this pipeline). -/
def computeCommandSuggestions (baseCommand : JStr) (existingCommands : List JStr) : List JStr :=
  if baseCommand.isEmpty || !startsWithDot baseCommand then []
  else
    let existingSet := existingCommands.map jsToLower
    let baseWithoutDot := baseCommand.drop 1
    let synonyms := ((synonymMap.lookup (jsToLower baseWithoutDot)).getD [])
    let s1 := synonyms.foldl
      (fun acc syn =>
        let sug := '.' :: syn
        if 4 ≤ sug.length then addSuggestion existingSet acc sug else acc) []
    let s2 := descriptiveSuffixes.foldl
      (fun acc suf => addSuggestion existingSet acc ('.' :: (baseWithoutDot ++ suf))) s1
    let s3 :=
      if 4 < baseWithoutDot.length then
        [('.' :: baseWithoutDot.take 3), ('.' :: baseWithoutDot.take 4)].foldl
          (fun acc ab =>
            if 4 ≤ ab.length then addSuggestion existingSet acc ab else acc) s2
      else s2
    let s4 := (List.range' 2 9).foldl
      (fun acc i => addSuggestion existingSet acc ('.' :: (baseWithoutDot ++ (Nat.repr i).data))) s3
    s4.take 5

/-- Lexicographic comparison of two JS strings by code unit, the default
comparator of `Array.prototype.sort` on string elements. -/
def jstrLe : JStr → JStr → Bool
  | [], _ => true
  | _ :: _, [] => false
  | a :: as, b :: bs => if a < b then true else if b < a then false else jstrLe as bs

/-- Insertion into a sorted list, for `jsSort`. -/
def insertSorted (x : JStr) : List JStr → List JStr
  | [] => [x]
  | y :: ys => if jstrLe x y then x :: y :: ys else y :: insertSorted x ys

/-- `existingCommands.sort()`: sorts lexicographically by code unit.
Duplicates are identical strings, so stability does not affect the joined
key. -/
def jsSort : List JStr → List JStr
  | [] => []
  | x :: xs => insertSorted x (jsSort xs)

/-- `array.join(",")`. -/
def joinComma : List JStr → JStr
  | [] => []
  | [x] => x
  | x :: xs => x ++ ',' :: joinComma xs

/-- The module-level `suggestionCache : Map<string, string[]>`, as an
association list with unique keys. -/
abbrev SuggestionCache := List (JStr × List JStr)

/-- `suggestionCache.get(k)` (also deciding `suggestionCache.has(k)`). -/
def cacheGet (cache : SuggestionCache) (k : JStr) : Option (List JStr) :=
  (cache.find? (fun p => p.1 == k)).map (fun p => p.2)

/-- `suggestionCache.set(k, v)`: replaces the entry of an existing key,
otherwise appends. -/
def cacheSet (cache : SuggestionCache) (k : JStr) (v : List JStr) : SuggestionCache :=
  if cache.any (fun p => p.1 == k) then
    cache.map (fun p => if p.1 == k then (k, v) else p)
  else
    cache ++ [(k, v)]

/-- The enumerable and non-enumerable members a plain object literal
inherits from `Object.prototype`: `synonymMap[key]` yields a truthy,
non-iterable value for these keys. -/
def objectProtoKeys : List JStr :=
  ["constructor".data, "hasOwnProperty".data, "isPrototypeOf".data,
   "propertyIsEnumerable".data, "toLocaleString".data, "toString".data,
   "valueOf".data, "__proto__".data, "__defineGetter__".data,
   "__defineSetter__".data, "__lookupGetter__".data, "__lookupSetter__".data]

/-- `synonymMap[key] || []` followed by `for (const synonym of synonyms)`:
an own key yields its synonym array, an inherited `Object.prototype`
member is truthy but not iterable, so the loop throws a `TypeError`
(modelled `Option.none`); any other key yields `undefined || []`. -/
def synonymLookupJs (key : JStr) : Option (List JStr) :=
  match synonymMap.lookup key with
  | some l => some l
  | Option.none => if objectProtoKeys.contains key then Option.none else some []

/-- `generateCommandSuggestions` from the integration-test module, with
the module-level memoization cache threaded explicitly: after the base
guard, the cache key `` `${baseCommand}:${existingCommands.sort().join(',')}` ``
is looked up and a hit returns the cached list as is; on a miss the
synonym lookup may throw (`Option.none`), otherwise the strategy pipeline
runs and the result is stored (after `clear()` when the cache holds more
than 100 entries) and returned. -/
def generateCommandSuggestions (cache : SuggestionCache) (baseCommand : JStr)
    (existingCommands : List JStr) : Option (List JStr × SuggestionCache) :=
  if baseCommand.isEmpty || !startsWithDot baseCommand then some ([], cache)
  else
    match cacheGet cache (baseCommand ++ ':' :: joinComma (jsSort existingCommands)) with
    | some cached => some (cached, cache)
    | Option.none =>
      match synonymLookupJs (jsToLower (baseCommand.drop 1)) with
      | Option.none => Option.none
      | some _ =>
        some (computeCommandSuggestions baseCommand existingCommands,
          cacheSet (if cache.length > 100 then [] else cache)
            (baseCommand ++ ':' :: joinComma (jsSort existingCommands))
            (computeCommandSuggestions baseCommand existingCommands))

/-! ### Pause presentation store (`unnamed/part_012`) -/

/-- The `pauseReason` values `'user' | 'secure-input' | 'both' | 'none'`. -/
inductive PauseReason where
  | user : PauseReason
  | secureInput : PauseReason
  | both : PauseReason
  | none : PauseReason
deriving Repr, DecidableEq

/-- `mapPauseReason` from the pause store. -/
def mapPauseReason (pausedByUser pausedBySecureInput : Bool) : PauseReason :=
  if pausedByUser && pausedBySecureInput then PauseReason.both
  else if pausedByUser then PauseReason.user
  else if pausedBySecureInput then PauseReason.secureInput
  else PauseReason.none

/-- The frontend `PauseState`. -/
structure PauseState where
  isPaused : Bool
  pauseReason : PauseReason
  canResume : Bool
  pauseTimestamp : Option String
deriving Repr, DecidableEq

/-- The `useState` initializer of `PauseToggleProvider`:
`{isPaused: false, pauseReason: 'none', canResume: true}`. -/
def initialPauseState : PauseState :=
  { isPaused := false, pauseReason := PauseReason.none, canResume := true,
    pauseTimestamp := Option.none }

/-- `PauseStateInfo` as returned by the backend command `get_pause_state`. -/
structure PauseStateInfo where
  is_paused : Bool
  paused_by_user : Bool
  paused_by_secure_input : Bool
  pause_timestamp : Option String
  can_resume : Bool
deriving Repr, DecidableEq

/-- The `newState` object built inside `refreshPauseState` from a fetched
`PauseStateInfo`. -/
def presentInfo (info : PauseStateInfo) : PauseState :=
  { isPaused := info.is_paused,
    pauseReason := mapPauseReason info.paused_by_user info.paused_by_secure_input,
    canResume := info.can_resume,
    pauseTimestamp := info.pause_timestamp }

/-- The state updater of `refreshPauseState`: keep `prev` when the three
compared fields (`isPaused`, `pauseReason`, `canResume`) are unchanged,
otherwise adopt the newly mapped state. -/
def refreshUpdate (prev : PauseState) (info : PauseStateInfo) : PauseState :=
  let newState := presentInfo info
  if prev.isPaused == newState.isPaused && prev.pauseReason == newState.pauseReason &&
      prev.canResume == newState.canResume then
    prev
  else
    newState

/-- `refreshPauseState`: on a successful `get_pause_state` apply
`refreshUpdate`; when the invoke rejects, the catch block logs and leaves
the state untouched (the error is not propagated). -/
def refreshPauseState (prev : PauseState) : Except String PauseStateInfo → PauseState
  | Except.ok info => refreshUpdate prev info
  | Except.error _ => prev

/-! ### Backend pause coordinator (modelled from the spec) -/

/-- Modelled from the spec: the Rust backend's pause state (the Tauri
engine is not among the frontend sources). `PauseState` of §3: the two
independent flags; the timestamp is elided, it is never consulted by the
claims. -/
structure BackendPauseState where
  pausedByUser : Bool
  pausedBySecureInput : Bool
deriving Repr, DecidableEq

/-- Modelled from the spec: effective `isPaused` is recomputed as the
disjunction of the flags (the permission source is outside the claimed
sequence and taken as granted). -/
def effectiveIsPaused (b : BackendPauseState) : Bool :=
  b.pausedByUser || b.pausedBySecureInput

/-- Modelled from the spec: the backend command `set_pause_state(paused,
byUser)` — `setUserPause` / `setSecureInputPause`, each altering only its
own flag. -/
def set_pause_state (b : BackendPauseState) (paused byUser : Bool) : BackendPauseState :=
  if byUser then { b with pausedByUser := paused }
  else { b with pausedBySecureInput := paused }

/-- Modelled from the spec: the backend command `toggle_global_pause`
flips the user flag and returns the recomputed effective `isPaused`. -/
def toggle_global_pause (b : BackendPauseState) : BackendPauseState × Bool :=
  let flipped := { b with pausedByUser := !b.pausedByUser }
  (flipped, effectiveIsPaused flipped)

/-- Modelled from the spec: the backend query `get_pause_state` reports
the flags and the recomputed effective `isPaused` (timestamp elided,
`can_resume` always reported true, as every frontend path presents it). -/
def get_pause_state (b : BackendPauseState) : PauseStateInfo :=
  { is_paused := effectiveIsPaused b,
    paused_by_user := b.pausedByUser,
    paused_by_secure_input := b.pausedBySecureInput,
    pause_timestamp := Option.none,
    can_resume := true }

/-! ### The pause interface as a transition system -/

/-- One update applied through the pause interface of the store. -/
inductive PauseAction where
  | togglePause : PauseAction
  | pauseExpansions : PauseAction
  | resumeExpansions : PauseAction
  | secureInputDetected : Bool → PauseAction
  | refresh : PauseAction
deriving Repr, DecidableEq

/-- Backend state together with the presented frontend state. -/
structure SystemState where
  backend : BackendPauseState
  front : PauseState
deriving Repr, DecidableEq

/-- Startup: backend not paused, frontend at its `useState` default. -/
def initSystemState : SystemState :=
  { backend := { pausedByUser := false, pausedBySecureInput := false },
    front := initialPauseState }

/-- One step of the pause interface, as written in `unnamed/part_012`
(success paths; `now` is `new Date().toISOString()`):
`togglePause` invokes `toggle_global_pause` and rebuilds the presentation
from the returned boolean alone; `pauseExpansions` sets the user pause and
presents `'both'` only when the previous reason was `'secure-input'`;
`resumeExpansions` clears the user pause and refreshes; the
`secure-input-detected` listener invokes `set_pause_state` with
`byUser: false` and refreshes; `refresh` re-fetches and applies
`refreshUpdate`. -/
def stepPause (now : String) (s : SystemState) : PauseAction → SystemState
  | PauseAction.togglePause =>
    let r := toggle_global_pause s.backend
    { backend := r.1,
      front := { isPaused := r.2,
                 pauseReason := if r.2 then PauseReason.user else PauseReason.none,
                 canResume := true,
                 pauseTimestamp := if r.2 then some now else Option.none } }
  | PauseAction.pauseExpansions =>
    let b := set_pause_state s.backend true true
    { backend := b,
      front := { isPaused := true,
                 pauseReason := if s.front.pauseReason == PauseReason.secureInput
                                then PauseReason.both else PauseReason.user,
                 canResume := true,
                 pauseTimestamp := some now } }
  | PauseAction.resumeExpansions =>
    let b := set_pause_state s.backend false true
    { backend := b, front := refreshUpdate s.front (get_pause_state b) }
  | PauseAction.secureInputDetected detected =>
    let b := set_pause_state s.backend detected false
    { backend := b, front := refreshUpdate s.front (get_pause_state b) }
  | PauseAction.refresh =>
    { backend := s.backend, front := refreshUpdate s.front (get_pause_state s.backend) }

/-- A whole interaction: fold the steps over the timestamped actions,
starting at startup state. -/
def runPause (acts : List (String × PauseAction)) : SystemState :=
  acts.foldl (fun s p => stepPause p.1 s p.2) initSystemState

/-! ### Keystroke engine with synthetic-input guard (modelled from the spec)

The Rust engine (Keystroke Monitor, Match Buffer, Injector, guard) is not
among the frontend sources; it is modelled from spec §3 (SyntheticInputGuard),
§4.2 (delimiter-triggered case-insensitive exact lookup, reset on
no-match) and §4.3 (raise guard, synthesize replacement, lower guard).
The sentinel/charset/length discipline of accumulation is orthogonal to
the guard claim and a plain append stands in for it; text deletion is not
modelled, the expansion log records each expansion fired. -/

/-- Modelled from the spec: the delimiter class
(space/tab/return/punctuation). -/
def isDelimiter (c : Char) : Bool :=
  c == ' ' || c == '\t' || c == '\n' || c == '\r' ||
  c == '.' || c == ',' || c == ';' || c == ':' || c == '!' || c == '?'

/-- Modelled from the spec: the rule table handed to the engine, command →
replacement text. -/
abbrev RuleTable := List (JStr × JStr)

/-- Modelled from the spec: case-insensitive exact lookup of the buffer in
the rule table (commands are unique at write time, so first match is the
match). -/
def matchRule (rules : RuleTable) (buffer : JStr) : Option JStr :=
  (rules.find? (fun r => jsToLower r.1 == jsToLower buffer)).map (fun r => r.2)

/-- Modelled from the spec: the engine's observable state — the
synthetic-input guard counter, the match buffer, and the log of
replacement texts expanded so far. -/
structure EngineState where
  guard : Nat
  buffer : JStr
  expansions : List JStr
deriving Repr, DecidableEq

/-- Modelled from the spec: processing of one observed input event. While
the guard is raised the event bypasses buffer and matcher entirely. On a
delimiter, the buffer is looked up: on a match the guard is raised, every
character of the replacement is synthesized — and observed back through
this same function — and the guard is lowered, the expansion being logged
and the buffer reset; on no match the buffer resets (delimiter not
retained). Otherwise the character is accumulated. The fuel bounds the
injection nesting depth (one level suffices, the guard stops deeper
ones). -/
def processEvent (rules : RuleTable) : Nat → EngineState → Char → EngineState
  | 0, s, _ => s
  | fuel + 1, s, c =>
    if s.guard ≠ 0 then s
    else if isDelimiter c then
      match matchRule rules s.buffer with
      | some repl =>
        let raised : EngineState := { s with guard := s.guard + 1 }
        let injected := repl.foldl (processEvent rules fuel) raised
        { injected with
            guard := injected.guard - 1,
            buffer := [],
            expansions := injected.expansions ++ [repl] }
      | Option.none => { s with buffer := [] }
    else { s with buffer := s.buffer ++ [c] }

/-! ## Theorems -/

/-- C6: `mapPauseReason` is a pure function of the two flags: `'both'` iff
both are set, `'user'` iff only the user flag, `'secure-input'` iff only
the secure-input flag, `'none'` iff neither. -/
theorem mapPauseReason_characterization :
    ∀ u s : Bool,
      (mapPauseReason u s = PauseReason.both ↔ (u = true ∧ s = true)) ∧
      (mapPauseReason u s = PauseReason.user ↔ (u = true ∧ s = false)) ∧
      (mapPauseReason u s = PauseReason.secureInput ↔ (u = false ∧ s = true)) ∧
      (mapPauseReason u s = PauseReason.none ↔ (u = false ∧ s = false)) := by
  decide

/-- C7: when `get_pause_state` rejects, `refreshPauseState` leaves any
current state untouched (the error is swallowed, not propagated), and the
store's initial state is the not-paused default (`isPaused` false, reason
`'none'`, `canResume` true), so a failing load at startup leaves the store
in that default. -/
theorem refresh_failure_keeps_default :
    ∀ (prev : PauseState) (e : String),
      refreshPauseState prev (Except.error e) = prev ∧
      refreshPauseState initialPauseState (Except.error e) = initialPauseState ∧
      initialPauseState.isPaused = false ∧
      initialPauseState.pauseReason = PauseReason.none ∧
      initialPauseState.canResume = true := by
  intro prev e
  exact ⟨rfl, rfl, rfl, rfl, rfl⟩

/-- C9: serializing any rule list and parsing the result yields exactly
that list back (round trip of the rules persistence format, stated at the
level of JSON values). -/
theorem serializeRules_parseRulesFile_roundtrip :
    ∀ rules : List Json, parseRulesFile (some (serializeRules rules)) = some rules := by
  intro rules
  rfl

/-- C8: the `refreshPauseState` updater returns the previous state object
exactly when the mapped presentation (`isPaused`, `pauseReason`,
`canResume`) is unchanged, and yields the newly mapped state — necessarily
different from the previous one — exactly when one of those three fields
differs. -/
theorem refreshUpdate_skip_iff :
    ∀ (prev : PauseState) (info : PauseStateInfo),
      ((prev.isPaused = (presentInfo info).isPaused ∧
        prev.pauseReason = (presentInfo info).pauseReason ∧
        prev.canResume = (presentInfo info).canResume) →
        refreshUpdate prev info = prev) ∧
      (¬(prev.isPaused = (presentInfo info).isPaused ∧
        prev.pauseReason = (presentInfo info).pauseReason ∧
        prev.canResume = (presentInfo info).canResume) →
        (refreshUpdate prev info = presentInfo info ∧ refreshUpdate prev info ≠ prev)) := by
  intro prev info
  constructor
  · rintro ⟨h1, h2, h3⟩
    simp [refreshUpdate, h1, h2, h3]
  · intro hn
    have hc : (prev.isPaused == (presentInfo info).isPaused &&
        prev.pauseReason == (presentInfo info).pauseReason &&
        prev.canResume == (presentInfo info).canResume) = false := by
      by_contra hh
      rw [Bool.not_eq_false, Bool.and_eq_true, Bool.and_eq_true] at hh
      exact hn ⟨by simpa using hh.1.1, by simpa using hh.1.2, by simpa using hh.2⟩
    have hres : refreshUpdate prev info = presentInfo info := by
      simp only [refreshUpdate, hc, Bool.false_eq_true, if_false]
    refine ⟨hres, ?_⟩
    rw [hres]
    intro heq
    exact hn ⟨congrArg PauseState.isPaused heq.symm,
      congrArg PauseState.pauseReason heq.symm, congrArg PauseState.canResume heq.symm⟩

/-- Closed witness for `refreshUpdate_skip_iff`: a fetched state whose
mapped fields match is skipped; one whose `isPaused` differs is adopted
and differs from the previous object. -/
theorem refreshUpdate_skip_iff_witness :
    refreshUpdate initialPauseState
        { is_paused := false, paused_by_user := false, paused_by_secure_input := false,
          pause_timestamp := some "t0", can_resume := true } = initialPauseState ∧
    refreshUpdate initialPauseState
        { is_paused := true, paused_by_user := true, paused_by_secure_input := false,
          pause_timestamp := Option.none, can_resume := true } ≠ initialPauseState := by
  constructor
  · exact (refreshUpdate_skip_iff initialPauseState _).1 (by decide)
  · exact ((refreshUpdate_skip_iff initialPauseState _).2 (by decide)).2

/-- Helper: whatever branch `refreshUpdate` takes, the presented
`isPaused` equals the fetched `is_paused`. -/
theorem refreshUpdate_isPaused (prev : PauseState) (info : PauseStateInfo) :
    (refreshUpdate prev info).isPaused = info.is_paused := by
  rw [refreshUpdate]
  split
  · next h =>
    rw [Bool.and_eq_true, Bool.and_eq_true] at h
    simpa [presentInfo] using h.1.1
  · rfl

/-- Helper: after any single step of the pause interface, the presented
`isPaused` equals the disjunction of the backend's stored flags. -/
theorem stepPause_isPaused_eq_effective (now : String) (s : SystemState) (a : PauseAction) :
    (stepPause now s a).front.isPaused = effectiveIsPaused (stepPause now s a).backend := by
  cases a with
  | togglePause => rfl
  | pauseExpansions => simp [stepPause, set_pause_state, effectiveIsPaused]
  | resumeExpansions => exact refreshUpdate_isPaused _ _
  | secureInputDetected d => exact refreshUpdate_isPaused _ _
  | refresh => exact refreshUpdate_isPaused _ _

/-- C1 (amended): for every sequence of pause-interface updates, the
presented `isPaused` equals the disjunction of the last stored
`pausedByUser` and `pausedBySecureInput`, and no update to one source
alters the other source's stored flag. (The presented pause *reason* is
not always the join of both flags: see
`togglePause_drops_secure_reason`.) -/
theorem pause_sources_compose_amended :
    (∀ acts : List (String × PauseAction),
      (runPause acts).front.isPaused = effectiveIsPaused (runPause acts).backend) ∧
    (∀ (s : SystemState) (now : String) (d : Bool),
      (stepPause now s PauseAction.togglePause).backend.pausedBySecureInput =
        s.backend.pausedBySecureInput ∧
      (stepPause now s PauseAction.pauseExpansions).backend.pausedBySecureInput =
        s.backend.pausedBySecureInput ∧
      (stepPause now s PauseAction.resumeExpansions).backend.pausedBySecureInput =
        s.backend.pausedBySecureInput ∧
      (stepPause now s (PauseAction.secureInputDetected d)).backend.pausedByUser =
        s.backend.pausedByUser) := by
  constructor
  · intro acts
    rw [runPause]
    refine List.foldlRecOn
      (motive := fun st => st.front.isPaused = effectiveIsPaused st.backend)
      acts _ initSystemState rfl ?_
    intro s _ p _
    exact stepPause_isPaused_eq_effective p.1 s p.2
  · intro s now d
    refine ⟨rfl, rfl, rfl, rfl⟩

/-- C1 (counterexample): after `secure-input-detected{true}` followed by
`togglePause`, both stored flags are raised — so the join of the flags
presents as `'both'` — yet `togglePause`'s own presentation update shows
`pauseReason = 'user'`: the secure-input source's contribution to the
presented pause reason is silently dropped, refuting the claim as
stated. -/
theorem togglePause_drops_secure_reason :
    (runPause [("t1", PauseAction.secureInputDetected true),
               ("t2", PauseAction.togglePause)]).backend.pausedByUser = true ∧
    (runPause [("t1", PauseAction.secureInputDetected true),
               ("t2", PauseAction.togglePause)]).backend.pausedBySecureInput = true ∧
    (runPause [("t1", PauseAction.secureInputDetected true),
               ("t2", PauseAction.togglePause)]).front.pauseReason = PauseReason.user ∧
    mapPauseReason true true = PauseReason.both := by
  refine ⟨rfl, rfl, rfl, rfl⟩

/-- Helper: events observed while the guard is raised leave the engine
state exactly as it is. -/
theorem processEvent_guarded_id (rules : RuleTable) (fuel : Nat) (s : EngineState)
    (c : Char) (h : s.guard ≠ 0) : processEvent rules fuel s c = s := by
  cases fuel with
  | zero => rfl
  | succ n => simp [processEvent, h]

/-- Helper: a whole synthesized character stream observed while the guard
is raised leaves the engine state unchanged. -/
theorem foldl_processEvent_guarded_id (rules : RuleTable) (fuel : Nat) (l : JStr) :
    ∀ s : EngineState, s.guard ≠ 0 → l.foldl (processEvent rules fuel) s = s := by
  induction l with
  | nil => intro s _; rfl
  | cons c t ih =>
    intro s h
    rw [List.foldl_cons, processEvent_guarded_id rules fuel s c h]
    exact ih s h

/-- C2: when an unguarded delimiter keystroke matches the buffer against a
rule, the whole expansion — raise guard, synthesize every character of the
replacement back through the monitor, lower guard — results in exactly one
logged expansion, an empty buffer and a lowered guard, whatever the
replacement text contains (in particular a valid command followed by a
delimiter inside the replacement triggers no secondary expansion, since
every injected event is observed with the guard raised and bypasses
buffer and matcher). -/
theorem guarded_injection_no_secondary_expansion
    (rules : RuleTable) (s : EngineState) (c : Char) (repl : JStr) (fuel : Nat)
    (hg : s.guard = 0) (hd : isDelimiter c = true)
    (hm : matchRule rules s.buffer = some repl) :
    processEvent rules (fuel + 1) s c =
      { guard := 0, buffer := [], expansions := s.expansions ++ [repl] } := by
  obtain ⟨g, buf, exps⟩ := s
  simp only at hg hm
  subst hg
  rw [processEvent]
  rw [if_neg (by simp), if_pos hd]
  rw [show matchRule rules (EngineState.buffer ⟨0, buf, exps⟩) = some repl from hm]
  have hid := foldl_processEvent_guarded_id rules fuel repl
    ⟨0 + 1, buf, exps⟩ (by simp)
  simp only [hid]

/-- Closed witness for `guarded_injection_no_secondary_expansion`: the
rule `.hello → "use .hello now "` has a replacement containing the valid
command `.hello` followed by a delimiter; expanding it logs exactly one
expansion. -/
theorem guarded_injection_no_secondary_expansion_witness :
    processEvent [(".hello".data, "use .hello now ".data)] 20
        { guard := 0, buffer := ".hello".data, expansions := [] } ' ' =
      { guard := 0, buffer := [], expansions := ["use .hello now ".data] } := by
  exact guarded_injection_no_secondary_expansion
    [(".hello".data, "use .hello now ".data)]
    { guard := 0, buffer := ".hello".data, expansions := [] } ' '
    "use .hello now ".data 19 rfl (by decide) (by decide)

/-- C5: `parseRulesFile` and `loadRulesFromStorage` yield a rule list
exactly when the payload parsed, its `version` field is the current
`RULES_VERSION` and its `rules` field is an array — and then the result is
exactly that stored array, never a guessed or partial recovery. In every
other case (parse failure, version mismatch, non-array `rules`, absent or
non-object payload) they yield `none`. -/
theorem rules_payload_parse_characterization :
    ∀ (j : Option Json) (raw : Option (Option Json)) (rs : List Json),
      (parseRulesFile j = some rs ↔
        ∃ p, j = some p ∧ p.falsy = false ∧
          p.getField "version" = some (Json.num RULES_VERSION) ∧
          p.getField "rules" = some (Json.arr rs)) ∧
      (loadRulesFromStorage raw = some rs ↔
        ∃ p, raw = some (some p) ∧ p.typeofIsObject = true ∧ p.isNull = false ∧
          p.getField "version" = some (Json.num RULES_VERSION) ∧
          p.getField "rules" = some (Json.arr rs)) := by
  intro j raw rs
  constructor
  · cases j with
    | none => simp [parseRulesFile]
    | some p =>
      rw [parseRulesFile]
      constructor
      · intro h
        refine ⟨p, rfl, ?_⟩
        by_cases hf : p.falsy
        · rw [if_pos hf] at h; exact absurd h (by simp)
        · rw [if_neg hf] at h
          refine ⟨by simpa using hf, ?_⟩
          split at h
          · next v rules hveq hreq =>
            split at h
            · next hcmp =>
              obtain rfl : rules = rs := by simpa using h
              have : v = RULES_VERSION := by simpa using hcmp
              subst this
              exact ⟨hveq, hreq⟩
            · exact absurd h (by simp)
          · exact absurd h (by simp)
      · rintro ⟨p', hp, hf, hv, hr⟩
        obtain rfl : p' = p := by simpa using hp.symm
        rw [if_neg (by simp [hf]), hv, hr]
        simp [RULES_VERSION]
  · cases raw with
    | none => simp [loadRulesFromStorage]
    | some oj =>
      cases oj with
      | none => simp [loadRulesFromStorage]
      | some p =>
        rw [loadRulesFromStorage]
        constructor
        · intro h
          refine ⟨p, rfl, ?_⟩
          by_cases ht : !p.typeofIsObject || p.isNull
          · rw [if_pos ht] at h; exact absurd h (by simp)
          · rw [if_neg ht] at h
            rw [Bool.or_eq_true, Bool.not_eq_true'] at ht
            push_neg at ht
            refine ⟨?_, ?_, ?_⟩
            · cases hh : p.typeofIsObject with
              | true => rfl
              | false => exact absurd hh ht.1
            · cases hh : p.isNull with
              | false => rfl
              | true => exact absurd hh ht.2
            · split at h
              · next v rules hveq hreq =>
                split at h
                · next hcmp =>
                  obtain rfl : rules = rs := by simpa using h
                  have : v = RULES_VERSION := by simpa using hcmp
                  subst this
                  exact ⟨hveq, hreq⟩
                · exact absurd h (by simp)
              · exact absurd h (by simp)
        · rintro ⟨p', hp, ht, hn, hv, hr⟩
          obtain rfl : p' = p := by simpa using hp.symm
          rw [if_neg (by simp [ht, hn]), hv, hr]
          simp [RULES_VERSION]

/-- Helper: the `/__/` test succeeds exactly when a doubled underscore
occurs somewhere in the string. -/
theorem hasDoubleUnderscore_iff (l : JStr) :
    hasDoubleUnderscore l = true ↔ ∃ l1 l2, l = l1 ++ '_' :: '_' :: l2 := by
  induction l with
  | nil =>
    simp [hasDoubleUnderscore]
  | cons a t ih =>
    cases t with
    | nil =>
      simp only [hasDoubleUnderscore, Bool.false_eq_true, false_iff]
      rintro ⟨l1, l2, h⟩
      have := congrArg List.length h
      simp at this
      omega
    | cons b t2 =>
      rw [hasDoubleUnderscore]
      constructor
      · intro h
        rw [Bool.or_eq_true] at h
        cases h with
        | inl h =>
          rw [Bool.and_eq_true, beq_iff_eq, beq_iff_eq] at h
          exact ⟨[], t2, by simp [h.1, h.2]⟩
        | inr h =>
          obtain ⟨l1, l2, hh⟩ := ih.mp h
          exact ⟨a :: l1, l2, by simp [hh]⟩
      · rintro ⟨l1, l2, hh⟩
        cases l1 with
        | nil =>
          simp only [List.nil_append, List.cons.injEq] at hh
          obtain ⟨rfl, rfl, rfl⟩ := hh
          simp
        | cons x l1t =>
          simp only [List.cons_append, List.cons.injEq] at hh
          obtain ⟨rfl, hh2⟩ := hh
          rw [Bool.or_eq_true]
          exact Or.inr (ih.mpr ⟨l1t, l2, hh2⟩)

/-- Helper: the command regex test succeeds exactly when the string is a
period followed by a nonempty run of `[A-Za-z0-9_]` characters. -/
theorem commandPatternTest_iff (l : JStr) :
    commandPatternTest l = true ↔
      ∃ rest, l = '.' :: rest ∧ rest ≠ [] ∧ ∀ c ∈ rest, isCmdChar c = true := by
  cases l with
  | nil => simp [commandPatternTest]
  | cons c rest =>
    rw [commandPatternTest]
    simp [Bool.and_eq_true, beq_iff_eq, List.all_eq_true, List.isEmpty_iff, and_assoc]

/-- Helper: the `^\._` half-test succeeds exactly when the string starts
with `._`. -/
theorem startsDotUnderscore_iff (l : JStr) :
    startsDotUnderscore l = true ↔ ∃ rest, l = '.' :: '_' :: rest := by
  cases l with
  | nil => simp [startsDotUnderscore]
  | cons a t =>
    cases t with
    | nil => simp [startsDotUnderscore]
    | cons b t2 =>
      rw [startsDotUnderscore]
      simp [Bool.and_eq_true, beq_iff_eq]

/-- Helper: `startsWith(".")` succeeds exactly when the string starts with
a period. -/
theorem startsWithDot_iff (l : JStr) :
    startsWithDot l = true ↔ ∃ rest, l = '.' :: rest := by
  cases l with
  | nil => simp [startsWithDot]
  | cons c rest => simp [startsWithDot, beq_iff_eq]

/-- Helper: a conditional singleton is the empty list exactly when the
condition fails. -/
theorem ite_singleton_eq_nil {α : Type} (g : Prop) [Decidable g] (x : α) :
    ((if g then [x] else []) = []) ↔ ¬g := by
  split <;> simp_all

/-- C3: `validateRule` reports no command-field error exactly when the
command starts with the sentinel period, is 5–50 characters long, is the
period followed only by `[A-Za-z0-9_]`, has no doubled underscore and no
leading or trailing underscore after the period, is not reserved
(case-insensitively), and no other existing rule carries the same command
case-insensitively. -/
theorem validateRule_command_ok_iff :
    ∀ (command replacementText : JStr) (existing : List ExpansionRule)
      (selfId : Option JStr),
      (validateRule command replacementText existing selfId).filter
          (fun e => e.field == ErrorField.command) = [] ↔
        specCommandOk command existing selfId := by
  intro command replacementText existing selfId
  simp only [validateRule, List.filter_append,
    apply_ite (List.filter (fun (e : ValidationError) => e.field == ErrorField.command)),
    List.filter,
    (show (ErrorField.command == ErrorField.command) = true from rfl),
    (show (ErrorField.replacementText == ErrorField.command) = false from rfl),
    List.append_eq_nil, ite_self, ite_singleton_eq_nil, and_true, true_and, and_assoc,
    Bool.not_eq_true', Bool.not_eq_false, Bool.not_eq_true, not_lt, not_le]
  rw [specCommandOk]
  constructor
  · rintro ⟨h1, h2, h3, h4, h5, h6, h7, h8⟩
    obtain ⟨rest, hrest, hne, hall⟩ := (commandPatternTest_iff command).mp h3
    rw [hasLeadTrailUnderscore] at h6
    simp only [Bool.or_eq_false_iff, beq_eq_false_iff_ne, ne_eq] at h6
    refine ⟨h1, ⟨by omega, by omega⟩, ⟨rest, hrest, hall⟩, ?_, ?_, h6.2, ?_, ?_⟩
    · rintro ⟨l1, l2, he⟩
      have := (hasDoubleUnderscore_iff command).mpr ⟨l1, l2, he⟩
      rw [h5] at this
      exact Bool.false_ne_true this
    · rintro ⟨r2, he⟩
      have := (startsDotUnderscore_iff command).mpr ⟨r2, he⟩
      rw [h6.1] at this
      exact Bool.false_ne_true this
    · intro hm
      have helem : RESERVED.contains (jsToLower command) = true := by
        simpa [List.contains] using List.elem_iff.mpr hm
      rw [h7] at helem
      exact Bool.false_ne_true helem
    · intro r hr hid hcmd
      have : existing.any
          (fun r => some r.id != selfId && jsToLower r.command == jsToLower command) = true :=
        List.any_eq_true.mpr ⟨r, hr, by simp [bne_iff_ne, hid, hcmd]⟩
      rw [h8] at this
      exact Bool.false_ne_true this
  · rintro ⟨h1, ⟨hlen5, hlen50⟩, ⟨rest, hrest, hall⟩, hdd, hdu, hlast, hres, huniq⟩
    have hrestne : rest ≠ [] := by
      rintro rfl
      rw [hrest] at hlen5
      simp at hlen5
    refine ⟨h1, by omega, (commandPatternTest_iff command).mpr ⟨rest, hrest, hrestne, hall⟩,
      by omega, ?_, ?_, ?_, ?_⟩
    · cases hdc : hasDoubleUnderscore command with
      | false => rfl
      | true => exact absurd ((hasDoubleUnderscore_iff command).mp hdc) hdd
    · rw [hasLeadTrailUnderscore]
      have hsdu : startsDotUnderscore command = false := by
        cases hs : startsDotUnderscore command with
        | false => rfl
        | true => exact absurd ((startsDotUnderscore_iff command).mp hs) hdu
      simp [hsdu, beq_eq_false_iff_ne, hlast]
    · cases hc : RESERVED.contains (jsToLower command) with
      | false => rfl
      | true =>
        have : jsToLower command ∈ RESERVED :=
          List.elem_iff.mp (by simpa [List.contains] using hc)
        exact absurd this hres
    · cases ha : existing.any
          (fun r => some r.id != selfId && jsToLower r.command == jsToLower command) with
      | false => rfl
      | true =>
        obtain ⟨r, hr, hp⟩ := List.any_eq_true.mp ha
        rw [Bool.and_eq_true, bne_iff_ne, beq_iff_eq] at hp
        exact absurd hp.2 (huniq r hr hp.1)

/-- C4: `validateRule` reports no replacementText-field error exactly when
the replacement text is non-empty, at most 10,000 characters long, and has
at most 100 lines. -/
theorem validateRule_replacement_ok_iff :
    ∀ (command replacementText : JStr) (existing : List ExpansionRule)
      (selfId : Option JStr),
      (validateRule command replacementText existing selfId).filter
          (fun e => e.field == ErrorField.replacementText) = [] ↔
        specReplacementOk replacementText := by
  intro command replacementText existing selfId
  simp only [validateRule, List.filter_append,
    apply_ite (List.filter (fun (e : ValidationError) => e.field == ErrorField.replacementText)),
    List.filter,
    (show (ErrorField.command == ErrorField.replacementText) = false from rfl),
    (show (ErrorField.replacementText == ErrorField.replacementText) = true from rfl),
    List.append_eq_nil, ite_self, ite_singleton_eq_nil, and_true, true_and, and_assoc,
    Bool.not_eq_true, not_lt, not_le, jsLineCount, List.isEmpty_iff, specReplacementOk, ne_eq]

/-- Helper: `addSuggestion` preserves distinctness and the per-element
guarantees (sentinel-led, case-insensitively absent from the existing
set), provided the candidate is sentinel-led. -/
theorem addSuggestion_good (es : List JStr) (acc : List JStr) (cand : JStr)
    (hn : acc.Nodup)
    (hm : ∀ x ∈ acc, startsWithDot x = true ∧ es.contains (jsToLower x) = false)
    (hc : startsWithDot cand = true) :
    (addSuggestion es acc cand).Nodup ∧
      ∀ x ∈ addSuggestion es acc cand,
        startsWithDot x = true ∧ es.contains (jsToLower x) = false := by
  rw [addSuggestion]
  split
  · next h =>
    rw [Bool.and_eq_true, Bool.and_eq_true] at h
    obtain ⟨⟨ha, _⟩, hdup⟩ := h
    rw [Bool.not_eq_true'] at ha hdup
    have hnotin : cand ∉ acc := by
      intro hmem
      rw [(by simp : (acc.contains cand = false) ↔ cand ∉ acc)] at hdup
      exact hdup hmem
    constructor
    · rw [List.nodup_append]
      exact ⟨hn, List.nodup_singleton _, by
        intro x hx hx'
        rw [List.mem_singleton] at hx'
        subst hx'
        exact hnotin hx⟩
    · intro x hx
      rw [List.mem_append, List.mem_singleton] at hx
      cases hx with
      | inl hxa => exact hm x hxa
      | inr hxc => subst hxc; exact ⟨hc, ha⟩
  · exact ⟨hn, hm⟩

/-- Helper: a fold whose step either applies `addSuggestion` to a
sentinel-led candidate or keeps the accumulator preserves the suggestion
guarantees. -/
theorem foldl_addSuggestion_good {α : Type} (es : List JStr) (cands : List α)
    (f : List JStr → α → List JStr)
    (hf : ∀ acc, ∀ x ∈ cands,
      (∃ t, f acc x = addSuggestion es acc ('.' :: t)) ∨ f acc x = acc)
    (init : List JStr) (hn : init.Nodup)
    (hm : ∀ x ∈ init, startsWithDot x = true ∧ es.contains (jsToLower x) = false) :
    (cands.foldl f init).Nodup ∧
      ∀ x ∈ cands.foldl f init,
        startsWithDot x = true ∧ es.contains (jsToLower x) = false := by
  refine List.foldlRecOn (motive := fun l =>
      l.Nodup ∧ ∀ x ∈ l, startsWithDot x = true ∧ es.contains (jsToLower x) = false)
    cands f init ⟨hn, hm⟩ ?_
  intro b hb a ha
  rcases hf b a ha with ⟨t, ht⟩ | hkeep
  · rw [ht]
    exact addSuggestion_good es b ('.' :: t) hb.1 hb.2 rfl
  · rw [hkeep]; exact hb

/-- Helper: the four strategy folds of `computeCommandSuggestions`
produce a distinct, sentinel-led, conflict-free suggestion list. -/
theorem suggestion_chain_good (es : List JStr) (bwd : JStr) (syns : List JStr) :
    (((List.range' 2 9).foldl
        (fun acc i => addSuggestion es acc ('.' :: (bwd ++ (Nat.repr i).data)))
        (if 4 < bwd.length then
          [('.' :: bwd.take 3), ('.' :: bwd.take 4)].foldl
            (fun acc ab => if 4 ≤ ab.length then addSuggestion es acc ab else acc)
            (descriptiveSuffixes.foldl
              (fun acc suf => addSuggestion es acc ('.' :: (bwd ++ suf)))
              (syns.foldl
                (fun acc syn =>
                  if 4 ≤ ('.' :: syn).length then addSuggestion es acc ('.' :: syn) else acc)
                []))
         else
          descriptiveSuffixes.foldl
            (fun acc suf => addSuggestion es acc ('.' :: (bwd ++ suf)))
            (syns.foldl
              (fun acc syn =>
                if 4 ≤ ('.' :: syn).length then addSuggestion es acc ('.' :: syn) else acc)
              [])))).Nodup ∧
      ∀ x ∈ ((List.range' 2 9).foldl
        (fun acc i => addSuggestion es acc ('.' :: (bwd ++ (Nat.repr i).data)))
        (if 4 < bwd.length then
          [('.' :: bwd.take 3), ('.' :: bwd.take 4)].foldl
            (fun acc ab => if 4 ≤ ab.length then addSuggestion es acc ab else acc)
            (descriptiveSuffixes.foldl
              (fun acc suf => addSuggestion es acc ('.' :: (bwd ++ suf)))
              (syns.foldl
                (fun acc syn =>
                  if 4 ≤ ('.' :: syn).length then addSuggestion es acc ('.' :: syn) else acc)
                []))
         else
          descriptiveSuffixes.foldl
            (fun acc suf => addSuggestion es acc ('.' :: (bwd ++ suf)))
            (syns.foldl
              (fun acc syn =>
                if 4 ≤ ('.' :: syn).length then addSuggestion es acc ('.' :: syn) else acc)
              []))),
        startsWithDot x = true ∧ es.contains (jsToLower x) = false := by
  have g1 := foldl_addSuggestion_good es syns
    (fun acc syn =>
      if 4 ≤ ('.' :: syn).length then addSuggestion es acc ('.' :: syn) else acc)
    (by
      intro acc x _
      dsimp only
      split
      · exact Or.inl ⟨x, rfl⟩
      · exact Or.inr rfl)
    [] List.nodup_nil (by simp)
  have g2 := foldl_addSuggestion_good es descriptiveSuffixes
    (fun acc suf => addSuggestion es acc ('.' :: (bwd ++ suf)))
    (by
      intro acc x _
      exact Or.inl ⟨bwd ++ x, rfl⟩)
    _ g1.1 g1.2
  have g3 :
      (if 4 < bwd.length then
        [('.' :: bwd.take 3), ('.' :: bwd.take 4)].foldl
          (fun acc ab => if 4 ≤ ab.length then addSuggestion es acc ab else acc)
          (descriptiveSuffixes.foldl
            (fun acc suf => addSuggestion es acc ('.' :: (bwd ++ suf)))
            (syns.foldl
              (fun acc syn =>
                if 4 ≤ ('.' :: syn).length then addSuggestion es acc ('.' :: syn) else acc)
              []))
       else
        descriptiveSuffixes.foldl
          (fun acc suf => addSuggestion es acc ('.' :: (bwd ++ suf)))
          (syns.foldl
            (fun acc syn =>
              if 4 ≤ ('.' :: syn).length then addSuggestion es acc ('.' :: syn) else acc)
            [])).Nodup ∧
      ∀ x ∈ (if 4 < bwd.length then
        [('.' :: bwd.take 3), ('.' :: bwd.take 4)].foldl
          (fun acc ab => if 4 ≤ ab.length then addSuggestion es acc ab else acc)
          (descriptiveSuffixes.foldl
            (fun acc suf => addSuggestion es acc ('.' :: (bwd ++ suf)))
            (syns.foldl
              (fun acc syn =>
                if 4 ≤ ('.' :: syn).length then addSuggestion es acc ('.' :: syn) else acc)
              []))
       else
        descriptiveSuffixes.foldl
          (fun acc suf => addSuggestion es acc ('.' :: (bwd ++ suf)))
          (syns.foldl
            (fun acc syn =>
              if 4 ≤ ('.' :: syn).length then addSuggestion es acc ('.' :: syn) else acc)
            [])),
        startsWithDot x = true ∧ es.contains (jsToLower x) = false := by
    split
    · exact foldl_addSuggestion_good es _
        (fun acc ab => if 4 ≤ ab.length then addSuggestion es acc ab else acc)
        (by
          intro acc x hx
          rw [List.mem_cons, List.mem_singleton] at hx
          dsimp only
          rcases hx with rfl | rfl
          · split
            · exact Or.inl ⟨bwd.take 3, rfl⟩
            · exact Or.inr rfl
          · split
            · exact Or.inl ⟨bwd.take 4, rfl⟩
            · exact Or.inr rfl)
        _ g2.1 g2.2
    · exact g2
  exact foldl_addSuggestion_good es (List.range' 2 9)
    (fun acc i => addSuggestion es acc ('.' :: (bwd ++ (Nat.repr i).data)))
    (by
      intro acc x _
      exact Or.inl ⟨bwd ++ (Nat.repr x).data, rfl⟩)
    _ g3.1 g3.2

/-- Helper: the strategy pipeline returns at most 5 suggestions, pairwise
distinct, each sentinel-led and case-insensitively absent from the
existing commands, and nothing for a base without the sentinel. -/
theorem computeCommandSuggestions_good :
    ∀ (baseCommand : JStr) (existingCommands : List JStr),
      (computeCommandSuggestions baseCommand existingCommands).length ≤ 5 ∧
      (computeCommandSuggestions baseCommand existingCommands).Nodup ∧
      (∀ s ∈ computeCommandSuggestions baseCommand existingCommands,
        startsWithDot s = true ∧
        (existingCommands.map jsToLower).contains (jsToLower s) = false) ∧
      (startsWithDot baseCommand = false →
        computeCommandSuggestions baseCommand existingCommands = []) := by
  intro baseCommand existingCommands
  by_cases hstart : baseCommand.isEmpty || !startsWithDot baseCommand
  · have hnil : computeCommandSuggestions baseCommand existingCommands = [] := by
      rw [computeCommandSuggestions, if_pos hstart]
    rw [hnil]
    exact ⟨by simp, List.nodup_nil, by simp, fun _ => rfl⟩
  · have hform : computeCommandSuggestions baseCommand existingCommands =
        ((List.range' 2 9).foldl
          (fun acc i => addSuggestion (existingCommands.map jsToLower) acc
            ('.' :: (baseCommand.drop 1 ++ (Nat.repr i).data)))
          (if 4 < (baseCommand.drop 1).length then
            [('.' :: (baseCommand.drop 1).take 3), ('.' :: (baseCommand.drop 1).take 4)].foldl
              (fun acc ab => if 4 ≤ ab.length then
                addSuggestion (existingCommands.map jsToLower) acc ab else acc)
              (descriptiveSuffixes.foldl
                (fun acc suf => addSuggestion (existingCommands.map jsToLower) acc
                  ('.' :: (baseCommand.drop 1 ++ suf)))
                (((synonymMap.lookup (jsToLower (baseCommand.drop 1))).getD []).foldl
                  (fun acc syn =>
                    if 4 ≤ ('.' :: syn).length then
                      addSuggestion (existingCommands.map jsToLower) acc ('.' :: syn)
                    else acc)
                  []))
           else
            descriptiveSuffixes.foldl
              (fun acc suf => addSuggestion (existingCommands.map jsToLower) acc
                ('.' :: (baseCommand.drop 1 ++ suf)))
              (((synonymMap.lookup (jsToLower (baseCommand.drop 1))).getD []).foldl
                (fun acc syn =>
                  if 4 ≤ ('.' :: syn).length then
                    addSuggestion (existingCommands.map jsToLower) acc ('.' :: syn)
                  else acc)
                []))).take 5 := by
      rw [computeCommandSuggestions, if_neg hstart]
    have hg := suggestion_chain_good (existingCommands.map jsToLower) (baseCommand.drop 1)
      ((synonymMap.lookup (jsToLower (baseCommand.drop 1))).getD [])
    rw [hform]
    refine ⟨List.length_take_le 5 _, hg.1.sublist (List.take_sublist 5 _), ?_, ?_⟩
    · intro s hs
      exact hg.2 s (List.mem_of_mem_take hs)
    · intro hsd
      exact absurd (by simp [hsd] : (baseCommand.isEmpty || !startsWithDot baseCommand) = true)
        hstart

/-- C10 (amended): a base command that does not start with the sentinel
yields no suggestion and leaves the cache untouched; and every call that
misses the memoization cache returns at most 5 suggestions, pairwise
distinct, each starting with `.` and case-insensitively absent from the
existing commands. (A cache hit instead returns the cached list verbatim,
and the lossy comma-joined cache key lets distinct existing-command lists
collide: see `generateCommandSuggestions_cache_collision`, which also
shows the inherited-member synonym lookup throwing.) -/
theorem generateCommandSuggestions_amended :
    ∀ (cache : SuggestionCache) (baseCommand : JStr) (existingCommands : List JStr)
      (result : List JStr) (c2 : SuggestionCache),
      (startsWithDot baseCommand = false →
        generateCommandSuggestions cache baseCommand existingCommands = some ([], cache)) ∧
      (cacheGet cache (baseCommand ++ ':' :: joinComma (jsSort existingCommands)) = Option.none →
        generateCommandSuggestions cache baseCommand existingCommands = some (result, c2) →
        result.length ≤ 5 ∧ result.Nodup ∧
          ∀ s ∈ result, startsWithDot s = true ∧
            (existingCommands.map jsToLower).contains (jsToLower s) = false) := by
  intro cache baseCommand existingCommands result c2
  constructor
  · intro hsd
    rw [generateCommandSuggestions, if_pos (by simp [hsd])]
  · intro hmiss hrun
    rw [generateCommandSuggestions] at hrun
    by_cases hguard : baseCommand.isEmpty || !startsWithDot baseCommand
    · rw [if_pos hguard] at hrun
      rw [Option.some.injEq, Prod.mk.injEq] at hrun
      obtain ⟨hres, _⟩ := hrun
      rw [← hres]
      exact ⟨by simp, List.nodup_nil, by simp⟩
    · rw [if_neg hguard] at hrun
      split at hrun
      · next cached heq =>
        rw [hmiss] at heq
        exact absurd heq (by simp)
      · next heq =>
        split at hrun
        · next hsyn => exact absurd hrun (by simp)
        · next syns hsyn =>
          rw [Option.some.injEq, Prod.mk.injEq] at hrun
          obtain ⟨hres, _⟩ := hrun
          rw [← hres]
          have hg := computeCommandSuggestions_good baseCommand existingCommands
          exact ⟨hg.1, hg.2.1, hg.2.2.1⟩

/-- C10 (counterexample): the cache key joins the sorted existing commands
with `,`, so the one-element list `[".sig_alt,.sig_new"]` and the
two-element list `[".sig_alt", ".sig_new"]` collide on the key
`.sig:.sig_alt,.sig_new`. After a first call with the former, a call with
the latter hits the cache and returns `.sig_new` and `.sig_alt` —
suggestions that are case-insensitively PRESENT in its existing commands
— refuting the claim as stated; and the base `.constructor` reaches an
inherited `Object.prototype` member in the synonym lookup, so the source
throws instead of returning a list. -/
theorem generateCommandSuggestions_cache_collision :
    generateCommandSuggestions [] ".sig".data [".sig_alt,.sig_new".data] =
      some ([".signature".data, ".sign".data, ".sig_new".data, ".sig_alt".data,
             ".sig_work".data],
        [(".sig:.sig_alt,.sig_new".data,
          [".signature".data, ".sign".data, ".sig_new".data, ".sig_alt".data,
           ".sig_work".data])]) ∧
    generateCommandSuggestions
        [(".sig:.sig_alt,.sig_new".data,
          [".signature".data, ".sign".data, ".sig_new".data, ".sig_alt".data,
           ".sig_work".data])]
        ".sig".data [".sig_alt".data, ".sig_new".data] =
      some ([".signature".data, ".sign".data, ".sig_new".data, ".sig_alt".data,
             ".sig_work".data],
        [(".sig:.sig_alt,.sig_new".data,
          [".signature".data, ".sign".data, ".sig_new".data, ".sig_alt".data,
           ".sig_work".data])]) ∧
    ".sig_new".data ∈
      [".signature".data, ".sign".data, ".sig_new".data, ".sig_alt".data, ".sig_work".data] ∧
    jsToLower ".sig_new".data ∈ [".sig_alt".data, ".sig_new".data].map jsToLower ∧
    generateCommandSuggestions [] ".constructor".data [] = Option.none := by
  exact ⟨rfl, rfl, by decide, by decide, rfl⟩

/-- Closed witness for `generateCommandSuggestions_amended`: a base
without the sentinel yields no suggestion, and a cache-missing call for
the conflicting `.sig` returns five distinct, sentinel-led suggestions
avoiding the existing command. -/
theorem generateCommandSuggestions_amended_witness :
    generateCommandSuggestions [] "sig".data [] = some ([], []) ∧
    ([".signature".data, ".sign".data, ".sig_new".data, ".sig_alt".data,
      ".sig_work".data].length ≤ 5 ∧
      [".signature".data, ".sign".data, ".sig_new".data, ".sig_alt".data,
       ".sig_work".data].Nodup ∧
      ∀ s ∈ [".signature".data, ".sign".data, ".sig_new".data, ".sig_alt".data,
             ".sig_work".data],
        startsWithDot s = true ∧
        ([".sig".data].map jsToLower).contains (jsToLower s) = false) := by
  constructor
  · exact (generateCommandSuggestions_amended [] "sig".data [] [] []).1 (by decide)
  · exact (generateCommandSuggestions_amended [] ".sig".data [".sig".data]
      [".signature".data, ".sign".data, ".sig_new".data, ".sig_alt".data, ".sig_work".data]
      [(".sig:.sig".data,
        [".signature".data, ".sign".data, ".sig_new".data, ".sig_alt".data,
         ".sig_work".data])]).2
      (by decide) (by decide)

end DotDash
